import Mathlib

/-!
Verification development for the Market repository's custodial crypto payment
and settlement core: the key vault (encryption utility), the TRON and Polygon
wallet services, and the admin withdrawal/sweep reconciliation logic.

Modelling conventions:
* JavaScript strings are embedded as byte sequences (`List Nat`); all the
  string data the wallet core manipulates (hex-encoded keys, `iv:ciphertext`
  blobs, addresses, hashes) is ASCII, so UTF-8 encoding is the identity.
* External effects (chain RPC results, generated keypairs, random IVs,
  environment configuration, injected DB faults) are passed as explicit
  parameters ("oracles"), one field per call site in the source.
* Node's AES-256-CBC cipher and SHA-256 digest are library primitives, not
  repository code; they are modelled at the interface the repository uses:
  the cipher as an IV-chained, key-dependent, invertible block transformation
  with PKCS#7 framing (block core: XOR with the 32-byte key material - the
  verified properties depend only on invertibility under the same key, never
  on AES internals), the digest as a deterministic hex digest of the full
  input that the code only ever compares for equality.
-/

set_option maxHeartbeats 1000000
set_option maxRecDepth 16000

namespace Market

/-- JavaScript string, embedded as a byte sequence. Well-formed data has every
byte below 256. -/
abbrev JStr := List Nat

/-- Every byte of the string is an actual byte value. -/
abbrev BytesWF (s : JStr) : Prop := ∀ b ∈ s, b < 256

/-- Byte code of the colon separating the IV from the ciphertext in the
`iv:ciphertext` format produced by `encrypt`. -/
def colonByte : Nat := 58

/-- Lowercase hex digit character for a nibble, as produced by
`Buffer.toString('hex')` (0-9 then a-f). -/
def hexDigitChar (n : Nat) : Nat := if n < 10 then 48 + n else 87 + n

/-- Value of a hex digit character (accepting 0-9, a-f, A-F), `none` on any
other character. -/
def hexCharVal? (c : Nat) : Option Nat :=
  if 48 ≤ c ∧ c ≤ 57 then some (c - 48)
  else if 97 ≤ c ∧ c ≤ 102 then some (c - 87)
  else if 65 ≤ c ∧ c ≤ 70 then some (c - 55)
  else none

/-- Models `Buffer.toString('hex')`: two lowercase hex characters per byte. -/
def bytesToHex : List Nat → JStr
  | [] => []
  | b :: bs => hexDigitChar (b / 16) :: hexDigitChar (b % 16) :: bytesToHex bs

/-- Models `Buffer.from(s, 'hex')`: Node decodes hex two characters at a time
and stops silently at the first pair that is not valid hex (it never throws). -/
def hexToBytes : JStr → List Nat
  | c1 :: c2 :: rest =>
    match hexCharVal? c1, hexCharVal? c2 with
    | some h, some l => (16 * h + l) :: hexToBytes rest
    | _, _ => []
  | _ => []

/-- Models `String.prototype.split(':')`. -/
def splitOnColon : JStr → List JStr
  | [] => [[]]
  | c :: rest =>
    if c = colonByte then [] :: splitOnColon rest
    else
      match splitOnColon rest with
      | [] => [[c]]
      | p :: ps => (c :: p) :: ps

/-- Models `Array.prototype.join(':')`. -/
def joinColon : List JStr → JStr
  | [] => []
  | [p] => p
  | p :: ps => p ++ colonByte :: joinColon ps

/-- Pointwise XOR of two byte sequences (truncating to the shorter). -/
def xorBytes (a b : List Nat) : List Nat := List.zipWith Nat.xor a b

/-- Block-cipher core stand-in for the AES-256 block function: XOR of the
16-byte block with the first 16 bytes of the key material. It is a keyed
permutation of blocks, which is the only property of the block core the
verified statements rely on. -/
def encBlock (key b : List Nat) : List Nat := xorBytes b (key.take 16)

/-- Inverse of `encBlock` (XOR is an involution). -/
def decBlock (key b : List Nat) : List Nat := xorBytes b (key.take 16)

/-- PKCS#7 padding to a whole number of 16-byte blocks, as applied by Node's
`cipher.final` for aes-256-cbc. -/
def pkcs7pad (data : List Nat) : List Nat :=
  let p := 16 - data.length % 16
  data ++ List.replicate p p

/-- PKCS#7 padding check and strip, as performed by `decipher.final`;
`none` models the OpenSSL `bad decrypt` error. -/
def pkcs7unpad (data : List Nat) : Option (List Nat) :=
  match data.getLast? with
  | none => none
  | some p =>
    if 1 ≤ p ∧ p ≤ 16 ∧ p ≤ data.length ∧ (data.drop (data.length - p)).all (· = p)
    then some (data.take (data.length - p))
    else none

/-- CBC-mode encryption, structurally recursive on a fuel bound (any fuel at
least the data length gives the same result, see `cbcEncryptAux_congr`): each
16-byte block is XORed with the previous ciphertext block (initially the IV)
and passed through the block core. -/
def cbcEncryptAux (key : List Nat) : Nat → List Nat → List Nat → List Nat
  | _, _, [] => []
  | 0, _, _ :: _ => []
  | fuel + 1, prev, b :: bs =>
    let c := encBlock key (xorBytes (List.take 16 (b :: bs)) prev)
    c ++ cbcEncryptAux key fuel c (List.drop 16 (b :: bs))

/-- CBC-mode encryption of the (already padded) data. -/
def cbcEncrypt (key prev data : List Nat) : List Nat :=
  cbcEncryptAux key data.length prev data

/-- CBC-mode decryption, structurally recursive on a fuel bound (inverse
chaining of `cbcEncryptAux`). -/
def cbcDecryptAux (key : List Nat) : Nat → List Nat → List Nat → List Nat
  | _, _, [] => []
  | 0, _, _ :: _ => []
  | fuel + 1, prev, b :: bs =>
    let c := List.take 16 (b :: bs)
    xorBytes (decBlock key c) prev ++ cbcDecryptAux key fuel c (List.drop 16 (b :: bs))

/-- CBC-mode decryption of a whole number of blocks. -/
def cbcDecrypt (key prev data : List Nat) : List Nat :=
  cbcDecryptAux key data.length prev data

/-- Process-wide configuration of the encryption utility: `ENCRYPTION_KEY`
(from `WALLET_ENCRYPTION_KEY` or the compiled-in default) and `FALLBACK_KEYS`
(from `WALLET_ENCRYPTION_KEY_FALLBACKS`, comma-separated). -/
structure CryptoEnv where
  encryptionKey : JStr
  fallbackKeys : List JStr
  deriving DecidableEq

/-- Interface model of `crypto.createHash('sha256').update(s).digest('hex')`:
a deterministic hex digest of the full input string. The digest core is a
64-bit fold stand-in rather than real SHA-256; every verified property uses
digests only through equality tests, exactly as the source does. -/
def sha256Hex (s : JStr) : JStr :=
  let h := s.foldl (fun h b => (h * 16777619 + b + 1) % (2 ^ 64)) 2166136261
  bytesToHex [h / 2 ^ 56 % 256, h / 2 ^ 48 % 256, h / 2 ^ 40 % 256,
    h / 2 ^ 32 % 256, h / 2 ^ 24 % 256, h / 2 ^ 16 % 256, h / 2 ^ 8 % 256, h % 256]

/-- Source `getEncryptionKeyHash`: hash identifier of the current key. -/
def getEncryptionKeyHash (env : CryptoEnv) : JStr := sha256Hex env.encryptionKey

/-- Source `getKeyHash`: hash identifier of a given key. -/
def getKeyHash (encryptionKey : JStr) : JStr := sha256Hex encryptionKey

/-- Error taxonomy of the encryption utility; constructors correspond one-one
to the throw sites in the source (and to the distinct OpenSSL failures of
`createDecipheriv`/`decipher.final`). -/
inductive CryptoErr where
  /-- `Invalid encrypted text format` (empty input or no colon). -/
  | invalidFormat
  /-- `Invalid encrypted text format: missing IV or encrypted data`. -/
  | missingParts
  /-- `Invalid IV length: expected 16, got n`. -/
  | invalidIvLength (got : Nat)
  /-- `createCipheriv`/`createDecipheriv` rejects key material that is not
  exactly 32 bytes for aes-256-cbc. -/
  | invalidKeyLength
  /-- `decipher.final`: `wrong final block length` (ciphertext not a whole
  number of blocks). Its message does not contain `bad decrypt`. -/
  | wrongFinalBlock
  /-- OpenSSL `bad decrypt` (padding check failed). -/
  | badDecrypt
  /-- `Decryption failed with all available keys. ... Tried n key(s).` -/
  | allKeysFailed (tried : Nat)
  deriving DecidableEq

/-- Source `encrypt`: AES-256-CBC with the first 32 characters of the current
key as key material and a random IV (passed here as the explicit `iv`
parameter); output is `iv_hex:ciphertext_hex`. -/
def encrypt (env : CryptoEnv) (iv : List Nat) (text : JStr) : Except CryptoErr JStr :=
  let key := env.encryptionKey.take 32
  if key.length ≠ 32 then .error .invalidKeyLength
  else .ok (bytesToHex iv ++ colonByte :: bytesToHex (cbcEncrypt key iv (pkcs7pad text)))

/-- Source `tryDecryptWithKey`: format checks, then CBC decryption with the
first 32 characters of the supplied key. -/
def tryDecryptWithKey (encryptedText : JStr) (encryptionKey : JStr) : Except CryptoErr JStr :=
  if encryptedText.isEmpty || !(encryptedText.contains colonByte) then .error .invalidFormat
  else
    let key := encryptionKey.take 32
    let parts := splitOnColon encryptedText
    if parts.length < 2 then .error .missingParts
    else
      let iv := hexToBytes (parts.headD [])
      let encrypted := joinColon parts.tail
      if iv.length ≠ 16 then .error (.invalidIvLength iv.length)
      else if key.length ≠ 32 then .error .invalidKeyLength
      else
        let data := hexToBytes encrypted
        if data.length % 16 ≠ 0 then .error .wrongFinalBlock
        else
          match pkcs7unpad (cbcDecrypt key iv data) with
          | some plain => .ok plain
          | none => .error .badDecrypt

/-- Source `decryptWithKey`: public alias of `tryDecryptWithKey`. -/
def decryptWithKey (encryptedText : JStr) (encryptionKey : JStr) : Except CryptoErr JStr :=
  tryDecryptWithKey encryptedText encryptionKey

/-- Source `decrypt`, step 2: scan the fallback keys in order for one whose
hash matches the stored hash and whose decryption succeeds. -/
def tryFallbacksByHash (fallbackKeys : List JStr) (encryptionKeyHash : JStr)
    (encryptedText : JStr) : Option JStr :=
  match fallbackKeys with
  | [] => none
  | k :: ks =>
    if encryptionKeyHash = getKeyHash k then
      match tryDecryptWithKey encryptedText k with
      | .ok p => some p
      | .error _ => tryFallbacksByHash ks encryptionKeyHash encryptedText
    else tryFallbacksByHash ks encryptionKeyHash encryptedText

/-- Source `decrypt`, last resort: try every fallback key in order, stopping at
the first success. -/
def tryFallbacksInOrder (fallbackKeys : List JStr) (encryptedText : JStr) : Option JStr :=
  match fallbackKeys with
  | [] => none
  | k :: ks =>
    match tryDecryptWithKey encryptedText k with
    | .ok p => some p
    | .error _ => tryFallbacksInOrder ks encryptedText

/-- Only the OpenSSL `bad decrypt` family of errors sends `decrypt` into its
fallback-key loop; everything else is rethrown. -/
def isDecryptError : CryptoErr → Bool
  | .badDecrypt => true
  | _ => false

/-- Source `decrypt`: hash-directed attempt with the current key, then with a
hash-matching fallback key; on no hash-directed success, try the current key,
and on a `bad decrypt` failure walk all fallbacks in order. -/
def decrypt (env : CryptoEnv) (encryptedText : JStr) (encryptionKeyHash : Option JStr) :
    Except CryptoErr JStr :=
  let hashDirected : Option JStr :=
    match encryptionKeyHash with
    | none => none
    | some h =>
      let viaCurrent : Option JStr :=
        if h = getEncryptionKeyHash env then
          match tryDecryptWithKey encryptedText env.encryptionKey with
          | .ok p => some p
          | .error _ => none
        else none
      match viaCurrent with
      | some p => some p
      | none => tryFallbacksByHash env.fallbackKeys h encryptedText
  match hashDirected with
  | some p => .ok p
  | none =>
    match tryDecryptWithKey encryptedText env.encryptionKey with
    | .ok p => .ok p
    | .error e =>
      if isDecryptError e then
        match tryFallbacksInOrder env.fallbackKeys encryptedText with
        | some p => .ok p
        | none => .error (.allKeysFailed (1 + env.fallbackKeys.length))
      else .error e

/-! ### Entities (temp-wallet, transaction, balance) -/

/-- Wallet networks (`entities/temp-wallet.entity`); the DB column defaults to
TRON (`add-network-to-temp-wallets.sql`). -/
inductive WalletNetwork where
  | TRON
  | POLYGON
  deriving DecidableEq

/-- Temp wallet lifecycle states. -/
inductive TempWalletStatus where
  | ACTIVE
  | COMPLETED
  | INACTIVE
  deriving DecidableEq

/-- The TempWallet entity, with the fields the settlement core reads. -/
structure TempWallet where
  id : Nat
  userId : Nat
  address : JStr
  privateKey : JStr
  encryptionKeyHash : Option JStr
  network : WalletNetwork
  status : TempWalletStatus
  totalReceived : ℚ
  deriving DecidableEq

/-- Transaction types (`entities/transaction.entity`). -/
inductive TransactionType where
  | CHARGE
  | WITHDRAW
  | MILESTONE_PAYMENT
  deriving DecidableEq

/-- Transaction statuses. -/
inductive TransactionStatus where
  | DRAFT
  | PENDING
  | SUCCESS
  | FAILED
  | CANCELLED
  deriving DecidableEq

/-- The Transaction entity, with the fields acceptWithdraw reads and writes. -/
structure TransactionRec where
  id : Nat
  clientId : Nat
  type : TransactionType
  amount : ℚ
  walletAddress : Option JStr
  status : TransactionStatus
  transactionHash : Option JStr
  deriving DecidableEq

/-- The Balance entity: the per-user internal ledger. -/
structure BalanceRec where
  userId : Nat
  amount : ℚ
  deriving DecidableEq

/-! ### Key handling of the wallet services -/

/-- Hex-digit test for one character (the `[0-9a-fA-F]` character class). -/
def isHexDigitByte (c : Nat) : Bool :=
  (48 ≤ c && c ≤ 57) || (97 ≤ c && c ≤ 102) || (65 ≤ c && c ≤ 70)

/-- The TRON raw-private-key pattern, 64 hex characters. -/
def isTronRawPrivateKey (s : JStr) : Bool :=
  s.length == 64 && s.all isHexDigitByte

/-- Models `privateKey.startsWith('0x')` (48 = `0`, 120 = `x`). -/
def startsWith0x (s : JStr) : Bool := s.take 2 == [48, 120]

/-- The Polygon raw-private-key pattern of
`PolygonWalletService.getDecryptedPrivateKey`: an optional `0x` followed by
64 hex characters (`x` is not a hex digit, so the two regex alternatives do
not overlap). -/
def isPolygonRawPrivateKey (s : JStr) : Bool :=
  if startsWith0x s then (s.drop 2).length == 64 && (s.drop 2).all isHexDigitByte
  else s.length == 64 && s.all isHexDigitByte

/-- Error raised by getDecryptedPrivateKey when neither decryption nor the
legacy plaintext pattern applies; it carries the wallet id and the inner
error (the source interpolates them into the BadRequestException message). -/
inductive KeyError where
  | decryptionFailed (walletId : Nat) (inner : CryptoErr)
  deriving DecidableEq

namespace WalletService

/-- Source `WalletService.getDecryptedPrivateKey` (TRON): decrypt with the
stored key hash; on any failure, pass a legacy raw 64-hex-character key
through unchanged; otherwise raise the actionable decryption error. -/
def getDecryptedPrivateKey (env : CryptoEnv) (w : TempWallet) : Except KeyError JStr :=
  match Market.decrypt env w.privateKey w.encryptionKeyHash with
  | .ok p => .ok p
  | .error e =>
    if isTronRawPrivateKey w.privateKey then .ok w.privateKey
    else .error (.decryptionFailed w.id e)

end WalletService

namespace PolygonWalletService

/-- Source `PolygonWalletService.getDecryptedPrivateKey`
(polygon-wallet.service): decrypt with the stored key hash; on failure, a
legacy raw key matching `(0x)? + 64 hex` is returned, `0x`-prefixed keys
unchanged and bare ones with `0x` prepended. -/
def getDecryptedPrivateKey (env : CryptoEnv) (w : TempWallet) : Except KeyError JStr :=
  match Market.decrypt env w.privateKey w.encryptionKeyHash with
  | .ok p => .ok p
  | .error e =>
    if isPolygonRawPrivateKey w.privateKey then
      .ok (if startsWith0x w.privateKey then w.privateKey else 48 :: 120 :: w.privateKey)
    else .error (.decryptionFailed w.id e)

end PolygonWalletService

/-! ### Temp wallet manager (getOrCreate) -/

/-- The temp_wallets table: rows in insertion order; `findOne` with no order
clause is modelled as the first matching row. -/
structure WalletRepo where
  rows : List TempWallet
  deriving DecidableEq

/-- Fresh keypair produced by the chain library's account generator
(nondeterministic, hence an explicit parameter). -/
structure FreshAccount where
  address : JStr
  privateKey : JStr
  deriving DecidableEq

/-- The TempWallet row built by the TRON getOrCreateTempWallet /
createTempWallet (network takes the column default TRON). -/
def mkTronWallet (env : CryptoEnv) (userId : Nat) (fresh : FreshAccount)
    (newId : Nat) (enc : JStr) : TempWallet :=
  { id := newId, userId := userId, address := fresh.address, privateKey := enc,
    encryptionKeyHash := some (getEncryptionKeyHash env),
    network := WalletNetwork.TRON, status := TempWalletStatus.ACTIVE,
    totalReceived := 0 }

/-- The TempWallet row built by the Polygon getOrCreateTempWallet. -/
def mkPolygonWallet (env : CryptoEnv) (userId : Nat) (fresh : FreshAccount)
    (newId : Nat) (enc : JStr) : TempWallet :=
  { id := newId, userId := userId, address := fresh.address, privateKey := enc,
    encryptionKeyHash := some (getEncryptionKeyHash env),
    network := WalletNetwork.POLYGON, status := TempWalletStatus.ACTIVE,
    totalReceived := 0 }

namespace WalletService

/-- Source `findOne({ userId, status: ACTIVE })` - note: the TRON service does
not filter on network. -/
def findActiveWallet (repo : WalletRepo) (userId : Nat) : Option TempWallet :=
  repo.rows.find? (fun w => w.userId == userId && w.status == TempWalletStatus.ACTIVE)

/-- Source `WalletService.getOrCreateTempWallet`: return the user's existing
ACTIVE wallet if any; otherwise generate a keypair, encrypt the private key
(random IV passed explicitly), stamp the current key hash, and persist a new
ACTIVE wallet (network takes the column default TRON). -/
def getOrCreateTempWallet (env : CryptoEnv) (iv : List Nat) (repo : WalletRepo)
    (userId : Nat) (fresh : FreshAccount) (newId : Nat) :
    Except CryptoErr (WalletRepo × TempWallet) :=
  match findActiveWallet repo userId with
  | some w => .ok (repo, w)
  | none =>
    match encrypt env iv fresh.privateKey with
    | .error e => .error e
    | .ok encryptedPrivateKey =>
      let tempWallet : TempWallet := mkTronWallet env userId fresh newId encryptedPrivateKey
      .ok (⟨repo.rows ++ [tempWallet]⟩, tempWallet)

end WalletService

namespace PolygonWalletService

/-- Source `findOne({ userId, status: ACTIVE, network: POLYGON })`. -/
def findActiveWallet (repo : WalletRepo) (userId : Nat) : Option TempWallet :=
  repo.rows.find? (fun w => w.userId == userId && w.status == TempWalletStatus.ACTIVE
    && w.network == WalletNetwork.POLYGON)

/-- Source `PolygonWalletService.getOrCreateTempWallet`: as the TRON variant
but scoped to and creating POLYGON wallets. -/
def getOrCreateTempWallet (env : CryptoEnv) (iv : List Nat) (repo : WalletRepo)
    (userId : Nat) (fresh : FreshAccount) (newId : Nat) :
    Except CryptoErr (WalletRepo × TempWallet) :=
  match findActiveWallet repo userId with
  | some w => .ok (repo, w)
  | none =>
    match encrypt env iv fresh.privateKey with
    | .error e => .error e
    | .ok encryptedPrivateKey =>
      let tempWallet : TempWallet := mkPolygonWallet env userId fresh newId encryptedPrivateKey
      .ok (⟨repo.rows ++ [tempWallet]⟩, tempWallet)

end PolygonWalletService

/-! ### Ledger reconciliation (AdminService.acceptWithdraw) -/

/-- Decidable equality for Except values (not provided by the core library). -/
instance {ε α : Type} [DecidableEq ε] [DecidableEq α] : DecidableEq (Except ε α) :=
  fun a b =>
    match a, b with
    | .ok x, .ok y =>
      if h : x = y then isTrue (by rw [h]) else isFalse (fun he => h (Except.ok.inj he))
    | .error x, .error y =>
      if h : x = y then isTrue (by rw [h]) else isFalse (fun he => h (Except.error.inj he))
    | .ok _, .error _ => isFalse (fun he => Except.noConfusion he)
    | .error _, .ok _ => isFalse (fun he => Except.noConfusion he)

/-- Committed database state seen by `AdminService.acceptWithdraw`. -/
structure AdminDB where
  transactions : List TransactionRec
  balances : List BalanceRec
  deriving DecidableEq

/-- Source `findOne(Transaction, { id, type: WITHDRAW })`. -/
def findWithdraw (db : AdminDB) (withdrawId : Nat) : Option TransactionRec :=
  db.transactions.find? (fun t => t.id == withdrawId && t.type == TransactionType.WITHDRAW)

/-- Source `findOne(Balance, { userId })`. -/
def findBalance (db : AdminDB) (userId : Nat) : Option BalanceRec :=
  db.balances.find? (fun b => b.userId == userId)

/-- Effect of `queryRunner.manager.save(balance)` once committed: the user's
balance row carries the new amount. -/
def saveBalance (db : AdminDB) (userId : Nat) (amount : ℚ) : AdminDB :=
  ⟨db.transactions,
    db.balances.map (fun b => if b.userId == userId then ⟨b.userId, amount⟩ else b)⟩

/-- Effect of `queryRunner.manager.save(withdraw)` once committed: the
withdrawal row is marked SUCCESS with the chain hash. -/
def saveWithdrawSuccess (db : AdminDB) (withdrawId : Nat) (txHash : JStr) : AdminDB :=
  ⟨db.transactions.map (fun t =>
      if t.id == withdrawId && t.type == TransactionType.WITHDRAW then
        { t with status := TransactionStatus.SUCCESS, transactionHash := some txHash }
      else t),
    db.balances⟩

/-- Outcome of the external `transferFromMasterToAddress` chain call. -/
inductive ChainOutcome where
  | ok (transactionHash : JStr)
  | fail
  deriving DecidableEq

/-- Injectable faults for the individual DB writes and the final commit. -/
structure DbFaults where
  saveBalanceFails : Bool
  saveTransactionFails : Bool
  commitFails : Bool
  deriving DecidableEq

/-- Errors surfaced by acceptWithdraw, one per throw site. -/
inductive AcceptError where
  /-- NotFoundException `Withdrawal request not found`. -/
  | notFound
  /-- BadRequestException `Withdrawal is already <status>`. -/
  | alreadyProcessed (s : TransactionStatus)
  /-- BadRequestException `User has insufficient balance for this withdrawal`. -/
  | insufficientBalance
  /-- Wrapped failure of the chain transfer. -/
  | transferFailed
  /-- Wrapped failure of a DB write or of the commit. -/
  | dbFailure
  deriving DecidableEq

/-- Result of one acceptWithdraw call: the response (or error), the committed
DB afterwards, and whether the master-wallet chain transfer was invoked. -/
structure AcceptOutcome where
  result : Except AcceptError (ℚ × JStr)
  db : AdminDB
  chainCalled : Bool
  deriving DecidableEq

/-- Source `AdminService.acceptWithdraw` inside its queryRunner transaction:
guards (existence, PENDING status, sufficient balance) run before the chain
transfer; all writes go through the transaction and become visible only at
commit; any error triggers rollbackTransaction, leaving the committed DB
untouched. -/
def AdminService.acceptWithdraw (db : AdminDB) (withdrawId : Nat)
    (chain : ChainOutcome) (f : DbFaults) : AcceptOutcome :=
  match findWithdraw db withdrawId with
  | none => ⟨.error .notFound, db, false⟩
  | some withdraw =>
    if withdraw.status ≠ TransactionStatus.PENDING then
      ⟨.error (.alreadyProcessed withdraw.status), db, false⟩
    else
      match findBalance db withdraw.clientId with
      | none => ⟨.error .insufficientBalance, db, false⟩
      | some balance =>
        if balance.amount < withdraw.amount then ⟨.error .insufficientBalance, db, false⟩
        else
          match chain with
          | .fail => ⟨.error .transferFailed, db, true⟩
          | .ok txHash =>
            if f.saveBalanceFails then ⟨.error .dbFailure, db, true⟩
            else
              let db1 := saveBalance db withdraw.clientId (balance.amount - withdraw.amount)
              if f.saveTransactionFails then ⟨.error .dbFailure, db, true⟩
              else
                let db2 := saveWithdrawSuccess db1 withdrawId txHash
                if f.commitFails then ⟨.error .dbFailure, db, true⟩
                else ⟨.ok (withdraw.amount, txHash), db2, true⟩

/-! ### TRON sweep (WalletService.transferFromTempToMaster) -/

/-- Duck-typed transaction result returned by TronWeb send calls: a plain
hash string, or an object carrying the hash under `txid`,
`transaction.txid` or `txID`, or something unrecognized. -/
inductive TxShape where
  | str (h : JStr)
  | objTxid (h : JStr)
  | objTransactionTxid (h : JStr)
  | objTxID (h : JStr)
  | unrecognized
  deriving DecidableEq

/-- The hash-extraction if-chain the source applies to TronWeb results. -/
def txHashOf : TxShape → Option JStr
  | .str h => some h
  | .objTxid h => some h
  | .objTransactionTxid h => some h
  | .objTxID h => some h
  | .unrecognized => none

/-- Whether the bounded confirmation loop observed a SUCCESS receipt within
`maxAttempts` one-second polls. When it never does, the source only logs
`not confirmed within timeout, but transfer may have succeeded`. -/
def confirmedWithin (polls : List Bool) (maxAttempts : Nat) : Bool :=
  (polls.take maxAttempts).any id

/-- BadRequest errors raised on the TRON sweep path, one per throw site. -/
inductive TronErr where
  /-- `Temp wallet not found`. -/
  | tempWalletNotFound
  /-- Rethrown getDecryptedPrivateKey failure. -/
  | keyError (e : KeyError)
  /-- `Failed to get transaction hash from TRX transfer`. -/
  | noTrxHash
  /-- `Failed to get transaction hash from transfer result`. -/
  | noUsdtHashShape
  /-- `Failed to transfer USDT: No transaction hash returned`. -/
  | noUsdtHash
  /-- `Failed to send TRX from master wallet: ...` (from sendTRXFromMaster). -/
  | sendTrxFailed
  /-- Any other exception, wrapped as `Failed to transfer from temp wallet`. -/
  | wrapped
  deriving DecidableEq

/-- External-world outcomes consumed by one `transferFromTempToMaster` call,
one field per effectful call site in source order. The TRON master wallet has
compiled-in defaults, so `getMasterWallet` never throws. -/
structure TronOracle where
  env : CryptoEnv
  /-- tempWalletRepository.findOne by id. -/
  wallet : Option TempWallet
  /-- getUSDTBalance (decimal USDT). -/
  usdtBalance : ℚ
  /-- getTRXBalance (decimal TRX). -/
  trxBalance : ℚ
  /-- trx.sendTransaction in the no-USDT branch. -/
  trxOnlySend : Except Unit TxShape
  /-- Receipt-SUCCESS polls for the no-USDT TRX transfer. -/
  trxOnlyConfirmPolls : List Bool
  /-- calculateRequiredTRXForTransfer (falls back to 30 internally, so it
  always yields a number). -/
  requiredTRX : ℚ
  /-- sendTRXFromMaster: the txid, or its wrapped throw. -/
  masterTopupSend : Except Unit JStr
  /-- contract.transfer(...).send(). -/
  usdtSend : Except Unit TxShape
  /-- Receipt-SUCCESS polls for the USDT transfer (up to 60 consulted). -/
  usdtConfirmPolls : List Bool
  /-- getTRXBalance after the USDT transfer. -/
  remainingTrxBalance : ℚ
  /-- trx.sendTransaction for the remaining-TRX sweep. -/
  remainingTrxSend : Except Unit TxShape
  /-- Receipt-SUCCESS polls for the remaining-TRX transfer. -/
  remainingTrxConfirmPolls : List Bool
  deriving DecidableEq

/-- Return shape of the TRON sweep. -/
structure TronSweepResult where
  usdtAmount : ℚ
  usdtTxHash : JStr
  trxTxHash : Option JStr
  deriving DecidableEq

/-- Source `WalletService.transferFromTempToMaster`: the 0.5 TRX fee buffer,
the no-USDT native-only sweep, the conditional master gas top-up, the USDT
transfer with duck-typed hash extraction, the 60-poll confirmation loop whose
timeout is only logged, and the error-swallowing remaining-TRX sweep. -/
def WalletService.transferFromTempToMaster (o : TronOracle) :
    Except TronErr TronSweepResult :=
  match o.wallet with
  | none => .error .tempWalletNotFound
  | some tempWallet =>
    match WalletService.getDecryptedPrivateKey o.env tempWallet with
    | .error e => .error (.keyError e)
    | .ok _privateKey =>
      if o.usdtBalance ≤ 0 then
        -- no USDT: transfer TRX only, keeping a 0.5 TRX fee buffer
        if o.trxBalance > mkRat 1 2 then
          match o.trxOnlySend with
          | .error _ => .error .wrapped
          | .ok shape =>
            match txHashOf shape with
            | some h =>
              if h.isEmpty then .error .noTrxHash
              else
                -- confirmation loop: timeout only logs a warning
                let _confirmed := confirmedWithin o.trxOnlyConfirmPolls 30
                .ok ⟨0, [], some h⟩
            | none => .error .noTrxHash
        else .ok ⟨0, [], none⟩
      else
        -- USDT branch: top up TRX from master when short
        let masterTrxHash : Except Unit (Option JStr) :=
          if o.trxBalance < o.requiredTRX then
            match o.masterTopupSend with
            | .error _ => .error ()
            | .ok h => .ok (some h)
          else .ok none
        match masterTrxHash with
        | .error _ => .error .sendTrxFailed
        | .ok trxTxHash =>
          match o.usdtSend with
          | .error _ => .error .wrapped
          | .ok shape =>
            match txHashOf shape with
            | none => .error .noUsdtHashShape
            | some txHash =>
              if txHash.isEmpty then .error .noUsdtHash
              else
                -- confirmation loop: `Don't throw error` on timeout
                let _confirmed := confirmedWithin o.usdtConfirmPolls 60
                -- remaining-TRX sweep; its errors are swallowed
                let remainingTrxTxHash : Option JStr :=
                  if o.remainingTrxBalance > mkRat 1 2 then
                    match o.remainingTrxSend with
                    | .error _ => none
                    | .ok s =>
                      match txHashOf s with
                      | some h => if h.isEmpty then none else some h
                      | none => none
                  else none
                .ok ⟨o.usdtBalance, txHash,
                  trxTxHash.orElse (fun _ => remainingTrxTxHash)⟩

/-! ### Polygon sweep (PolygonWalletService.transferUSDCFromTempWalletToMaster) -/

/-- Result of sendMATIC / sendUSDC as consumed by callers. -/
structure SendResult where
  success : Bool
  transactionHash : Option JStr
  deriving DecidableEq

/-- Failure reasons of the Polygon sweep, one per return/throw site. -/
inductive PolyError where
  /-- `Polygon master wallet not configured...` (thrown, then caught). -/
  | masterNotConfigured
  /-- Rethrown getDecryptedPrivateKey failure (caught by the outer catch). -/
  | keyError (e : KeyError)
  /-- `Failed to top up MATIC for gas: ...`. -/
  | topupFailed
  /-- `USDC transfer failed` (receipt status is not 1). -/
  | usdcTransferFailed
  /-- Any other exception caught by the outer catch. -/
  | thrown
  deriving DecidableEq

/-- Return shape of the Polygon sweep. -/
structure PolyResult where
  success : Bool
  usdcTxHash : Option JStr
  maticTxHash : Option JStr
  error : Option PolyError
  deriving DecidableEq

/-- Models `ethers.parseUnits(String(q), 18)` for the non-negative decimal
configuration values in play. -/
def parseUnits18 (q : ℚ) : Nat := (q * 1000000000000000000).floor.toNat

/-- External-world outcomes consumed by one Polygon sweep call, one field per
effectful call site in source order; `withRetry`-wrapped calls are modelled by
their final outcome. -/
structure PolyOracle where
  env : CryptoEnv
  /-- Both POLYGON_MASTER_WALLET_* variables present. -/
  masterConfigured : Bool
  wallet : TempWallet
  /-- Caller-supplied explicit amount, already in raw 6-decimal units. -/
  amountUSDC : Option Nat
  /-- usdc.balanceOf (raw units). -/
  balanceOf : Nat
  /-- eth_gasPrice (wei), after the retry wrapper. -/
  gasPrice : Except Unit Nat
  /-- usdc.transfer.estimateGas, after the retry wrapper (its failure is
  swallowed by the inner catch). -/
  estimateGas : Except Unit Nat
  /-- provider.getBalance of the temp wallet (wei). -/
  tempMaticWei : Nat
  /-- POLYGON_TEMP_WALLET_GAS_TOPUP_MATIC (default 0.05). -/
  minTopupMatic : ℚ
  /-- sendMATIC master-to-temp gas top-up. -/
  sendMATICResult : SendResult
  /-- waitForPreviousTxs nonce polling (can throw through its retry wrappers). -/
  previousTxWait : Except Unit Unit
  /-- getTransactionCount pending, after the retry wrapper. -/
  nonce : Except Unit Nat
  /-- usdc.transfer(...): the tx hash, after the retry wrapper. -/
  usdcTransferSend : Except Unit JStr
  /-- provider.waitForTransaction: `receipt?.status`, after the retry
  wrapper. -/
  receiptStatus : Except Unit (Option Nat)
  deriving DecidableEq

/-- Source `PolygonWalletService.transferUSDCFromTempWalletToMaster` (the body
enqueued on the single-slot USDC transfer queue): gas estimation with fixed
fallback, conditional MATIC top-up (never rolled back), nonce wait, the USDC
transfer, and the receipt check - status 1 is required for success, otherwise
`USDC transfer failed` is reported while `maticTxHash` is kept. -/
def PolygonWalletService.transferUSDCFromTempWalletToMaster (o : PolyOracle) : PolyResult :=
  if !o.masterConfigured then ⟨false, none, none, some .masterNotConfigured⟩
  else
    match PolygonWalletService.getDecryptedPrivateKey o.env o.wallet with
    | .error e => ⟨false, none, none, some (.keyError e)⟩
    | .ok _privateKey =>
      let _rawBalance := match o.amountUSDC with | some a => a | none => o.balanceOf
      match o.gasPrice with
      | .error _ => ⟨false, none, none, some .thrown⟩
      | .ok gp =>
        let gasPrice := gp * 2
        -- (gasLimit override, gasNeededWei); estimation failure falls back
        let gasInfo : Nat × Nat :=
          match o.estimateGas with
          | .ok gl => (gl * 12 / 10, gl * gasPrice)
          | .error _ => (200000, 0)
        let gasNeededWei := gasInfo.2
        let reserveWei := parseUnits18 o.minTopupMatic
        let needTopup :=
          if gasNeededWei > 0 then o.tempMaticWei < gasNeededWei
          else o.tempMaticWei < reserveWei
        let topup : Except PolyResult (Option JStr) :=
          if needTopup then
            if !o.sendMATICResult.success then
              .error ⟨false, none, none, some .topupFailed⟩
            else .ok o.sendMATICResult.transactionHash
          else .ok none
        match topup with
        | .error r => r
        | .ok maticTxHash =>
          match o.previousTxWait with
          | .error _ => ⟨false, none, none, some .thrown⟩
          | .ok _ =>
            match o.nonce with
            | .error _ => ⟨false, none, none, some .thrown⟩
            | .ok _nonce =>
              match o.usdcTransferSend with
              | .error _ => ⟨false, none, none, some .thrown⟩
              | .ok txHash =>
                match o.receiptStatus with
                | .error _ => ⟨false, none, none, some .thrown⟩
                | .ok st =>
                  if st ≠ some 1 then ⟨false, none, maticTxHash, some .usdcTransferFailed⟩
                  else ⟨true, some txHash, maticTxHash, none⟩

/-! ### Legacy Polygon sweep (wallet/polygon-wallet.service.ts) -/

/-- Failure reasons of the legacy Polygon sweep, one per return site. -/
inductive LegacyPolyError where
  /-- `Polygon master wallet not configured...`. -/
  | masterNotConfigured
  /-- Caught getDecryptedPrivateKey failure. -/
  | keyError (e : KeyError)
  /-- `Failed to transfer USDC: ...`. -/
  | usdcSendFailed
  /-- `No USDC to transfer.`. -/
  | noUsdcToTransfer
  deriving DecidableEq

/-- Return shape of the legacy Polygon sweep. -/
structure LegacyPolyResult where
  success : Bool
  usdcTxHash : Option JStr
  maticTxHash : Option JStr
  error : Option LegacyPolyError
  deriving DecidableEq

/-- External-world outcomes consumed by one legacy Polygon sweep call. -/
structure LegacyPolyOracle where
  env : CryptoEnv
  /-- Both POLYGON_MASTER_WALLET_* variables present. -/
  masterConfigured : Bool
  wallet : TempWallet
  /-- getUSDCBalance (decimal USDC). -/
  usdcBalance : ℚ
  /-- sendUSDC temp-to-master. -/
  sendUSDC : SendResult
  deriving DecidableEq

/-- Legacy Polygon getDecryptedPrivateKey (mandatory `0x` + 64 hex pattern,
returned unchanged). -/
def LegacyPolygonWalletService.getDecryptedPrivateKey (env : CryptoEnv)
    (w : TempWallet) : Except KeyError JStr :=
  match Market.decrypt env w.privateKey w.encryptionKeyHash with
  | .ok p => .ok p
  | .error e =>
    if startsWith0x w.privateKey && (w.privateKey.drop 2).length == 64
        && (w.privateKey.drop 2).all isHexDigitByte then .ok w.privateKey
    else .error (.decryptionFailed w.id e)

/-- Source `transferFromTempWalletToMaster` of the legacy Polygon service:
sweeps USDC only; a balance at or below the 0.000001 dust threshold returns
`success: false` with error `No USDC to transfer.` - an error outcome, not a
success. -/
def LegacyPolygonWalletService.transferFromTempWalletToMaster (o : LegacyPolyOracle) :
    LegacyPolyResult :=
  if !o.masterConfigured then ⟨false, none, none, some .masterNotConfigured⟩
  else
    match LegacyPolygonWalletService.getDecryptedPrivateKey o.env o.wallet with
    | .error e => ⟨false, none, none, some (.keyError e)⟩
    | .ok _privateKey =>
      if o.usdcBalance > mkRat 1 1000000 then
        if !o.sendUSDC.success then ⟨false, none, none, some .usdcSendFailed⟩
        else ⟨true, o.sendUSDC.transactionHash, none, none⟩
      else ⟨false, none, none, some .noUsdcToTransfer⟩

/-! ### Transfer serialization (single-slot queue vs. free interleaving) -/

/-- Suspension-point-level actions of a sweep attempt: ordinary RPC reads,
submitting an outbound transfer, and waiting for its confirmation. Every such
action sits at an `await`, so the event loop may interleave other work
there. -/
inductive ChainAction where
  | rpcRead
  | submitTransfer
  | confirmWait
  deriving DecidableEq

/-- Action sequence of one TRON sweep attempt on the USDT path (coarsened to
one representative RPC read before the transfer): read balances, submit the
USDT transfer, poll for its confirmation. -/
def tronSweepActions : List ChainAction := [.rpcRead, .submitTransfer, .confirmWait]

/-- Action sequence of one Polygon sweep attempt body: reads (balance, gas,
nonce), submit the USDC transfer, wait for the receipt. -/
def polygonSweepActions : List ChainAction := [.rpcRead, .submitTransfer, .confirmWait]

/-- Actions tagged with which of the two concurrent sweep attempts performed
them. -/
def tagged (attempt : Bool) (l : List ChainAction) : List (Bool × ChainAction) :=
  l.map (fun a => (attempt, a))

/-- All event-loop interleavings of two action sequences, structurally
recursive on a fuel bound covering both lengths. -/
def interleavingsAux : Nat → List α → List α → List (List α)
  | _, [], ys => [ys]
  | _, x :: xs, [] => [x :: xs]
  | 0, _ :: _, _ :: _ => []
  | fuel + 1, x :: xs, y :: ys =>
    (interleavingsAux fuel xs (y :: ys)).map (x :: ·) ++
      (interleavingsAux fuel (x :: xs) ys).map (y :: ·)

/-- All event-loop interleavings of two action sequences - the semantics of
two concurrent async calls with no queue between them. -/
def interleavings (a b : List α) : List (List α) :=
  interleavingsAux (a.length + b.length) a b

/-- Models `enqueueUsdcTransfer`: `run = queue.then(fn, fn); queue = run.then`
chains each job onto the settled end of the previous one, so a queue of jobs
executes their action sequences back to back in FIFO order. -/
def runQueue (jobs : List (List (Bool × ChainAction))) : List (Bool × ChainAction) :=
  jobs.flatten

/-- Scan of a trace checking that no transfer is submitted while another
submitted transfer has not yet reached its confirmation wait: at most one
outbound transfer in flight at a time. -/
def noConcurrentTransfers : Option Bool → List (Bool × ChainAction) → Bool
  | _, [] => true
  | st, (w, a) :: rest =>
    match a with
    | .submitTransfer =>
      match st with
      | none => noConcurrentTransfers (some w) rest
      | some _ => false
    | .confirmWait => noConcurrentTransfers none rest
    | .rpcRead => noConcurrentTransfers st rest

/-- Traces two concurrent TRON sweep attempts can produce: any interleaving,
since `transferFromTempToMaster` is not routed through any queue. -/
def tronTwoSweepTraces : List (List (Bool × ChainAction)) :=
  interleavings (tagged true tronSweepActions) (tagged false tronSweepActions)

/-- Traces two concurrent Polygon sweep attempts can produce: both bodies are
wrapped by `enqueueUsdcTransfer`, so the only trace is the serial one. -/
def polygonTwoSweepTraces : List (List (Bool × ChainAction)) :=
  [runQueue [tagged true polygonSweepActions, tagged false polygonSweepActions]]

/-- The serialization property claimed in the spec for a chain's sweep path:
every admissible trace of two concurrent sweep attempts keeps at most one
outbound transfer in flight. -/
abbrev serializedSweeps (traces : List (List (Bool × ChainAction))) : Prop :=
  ∀ t ∈ traces, noConcurrentTransfers none t = true

/-! ### Concrete witness data -/

/-- Concrete 32-byte key (ASCII `A` repeated), the original current key. -/
def wKeyA : JStr := List.replicate 32 65

/-- Concrete 32-byte key (ASCII `B` repeated), the rotated-in current key. -/
def wKeyB : JStr := List.replicate 32 66

/-- Concrete 32-byte key (ASCII `C` repeated). -/
def wKeyC32 : JStr := List.replicate 32 67

/-- Concrete 40-byte key agreeing with `wKeyC32` on the first 32 bytes. -/
def wKeyC40 : JStr := List.replicate 40 67

/-- Concrete random IV used in witnesses. -/
def wIv : JStr := List.replicate 16 7

/-- Concrete plaintext private-key bytes used in witnesses. -/
def wPlain : JStr := [104, 101, 108, 108, 111]

/-- Environment with `wKeyA` current and no fallbacks. -/
def wEnvA : CryptoEnv := ⟨wKeyA, []⟩

/-- Environment after key rotation: `wKeyB` current, `wKeyA` a fallback. -/
def wEnvB : CryptoEnv := ⟨wKeyB, [wKeyA]⟩

/-- Ciphertext of `wPlain` under `wEnvA` with IV `wIv`. -/
def wCtA : JStr := (encrypt wEnvA wIv wPlain).toOption.getD []

/-- A TRON temp wallet whose stored key is a raw 64-hex-char private key
(legacy plaintext, 97 = `a`). -/
def wTronWallet : TempWallet :=
  ⟨1, 1, [], List.replicate 64 97, none, .TRON, .ACTIVE, 0⟩

/-- A Polygon temp wallet whose stored key is a raw `0x` + 64-hex private key
(legacy plaintext). -/
def wPolyWallet : TempWallet :=
  ⟨2, 1, [], 48 :: 120 :: List.replicate 64 97, some (getKeyHash wKeyA), .POLYGON, .ACTIVE, 0⟩

/-- Concrete fresh account generated by the chain library (witness data). -/
def wFresh : FreshAccount := ⟨[65], List.replicate 64 97⟩

/-- Empty wallet repository (witness data). -/
def wRepo0 : WalletRepo := ⟨[]⟩

/-- Result of the first TRON getOrCreateTempWallet call on the empty repo. -/
def wGot1 : WalletRepo × TempWallet :=
  (WalletService.getOrCreateTempWallet wEnvA wIv wRepo0 7 wFresh 100).toOption.getD
    (⟨[]⟩, wTronWallet)

/-- Result of the first Polygon getOrCreateTempWallet call on the empty repo. -/
def wGotP1 : WalletRepo × TempWallet :=
  (PolygonWalletService.getOrCreateTempWallet wEnvA wIv wRepo0 7 wFresh 200).toOption.getD
    (⟨[]⟩, wPolyWallet)

/-- Concrete PENDING withdrawal of 50 for user 5 (witness data). -/
def wWithdrawTx : TransactionRec :=
  ⟨10, 5, .WITHDRAW, 50, some [84], .PENDING, none⟩

/-- Concrete already-settled withdrawal (witness data). -/
def wPaidTx : TransactionRec :=
  ⟨11, 5, .WITHDRAW, 30, some [84], .SUCCESS, some [104]⟩

/-- Admin DB with a PENDING withdrawal of 50 and a balance of 100. -/
def wAdminDB : AdminDB := ⟨[wWithdrawTx, wPaidTx], [⟨5, 100⟩]⟩

/-- Admin DB whose balance (40) is below the withdrawal amount (50). -/
def wAdminDBLow : AdminDB := ⟨[wWithdrawTx], [⟨5, 40⟩]⟩

/-- TRON sweep oracle: 50 USDT, ample TRX, USDT transfer submitted, but no
confirmation poll ever reports SUCCESS (a full timeout). -/
def wTronOracleUnconfirmed : TronOracle where
  env := wEnvA
  wallet := some wTronWallet
  usdtBalance := 50
  trxBalance := 10
  trxOnlySend := .ok .unrecognized
  trxOnlyConfirmPolls := []
  requiredTRX := 5
  masterTopupSend := .ok [109]
  usdtSend := .ok (.str [104, 49])
  usdtConfirmPolls := List.replicate 60 false
  remainingTrxBalance := 0
  remainingTrxSend := .ok .unrecognized
  remainingTrxConfirmPolls := []

/-- TRON sweep oracle with nothing to transfer: zero USDT and TRX exactly at
the 0.5 fee buffer. -/
def wTronOracleEmpty : TronOracle where
  env := wEnvA
  wallet := some wTronWallet
  usdtBalance := 0
  trxBalance := mkRat 1 2
  trxOnlySend := .ok .unrecognized
  trxOnlyConfirmPolls := []
  requiredTRX := 30
  masterTopupSend := .ok [109]
  usdtSend := .ok .unrecognized
  usdtConfirmPolls := []
  remainingTrxBalance := 0
  remainingTrxSend := .ok .unrecognized
  remainingTrxConfirmPolls := []

/-- Polygon sweep oracle: gas top-up needed and sent, USDC transfer submitted,
but the receipt comes back with status 0. -/
def wPolyOracleFailedReceipt : PolyOracle where
  env := wEnvA
  masterConfigured := true
  wallet := wPolyWallet
  amountUSDC := none
  balanceOf := 50000000
  gasPrice := .ok 30
  estimateGas := .ok 60000
  tempMaticWei := 0
  minTopupMatic := mkRat 1 20
  sendMATICResult := ⟨true, some [109, 49]⟩
  previousTxWait := .ok ()
  nonce := .ok 0
  usdcTransferSend := .ok [117, 49]
  receiptStatus := .ok (some 0)

/-- Legacy Polygon sweep oracle with zero USDC. -/
def wLegacyOracleZero : LegacyPolyOracle where
  env := wEnvA
  masterConfigured := true
  wallet := wPolyWallet
  usdcBalance := 0
  sendUSDC := ⟨true, some [117]⟩

/-- C3 as stated, instantiated at the TRON sweep: whenever the USDT transfer
was submitted (with a usable hash) and the 60-poll confirmation wait never
observes a SUCCESS receipt, the sweep must report an error. -/
def tronConfirmRequiredClaim : Prop :=
  ∀ o : TronOracle, 0 < o.usdtBalance →
    (∃ h, o.usdtSend = .ok (.str h) ∧ h ≠ []) →
    confirmedWithin o.usdtConfirmPolls 60 = false →
    ∃ e, WalletService.transferFromTempToMaster o = .error e

/-- C4 as stated, instantiated at the legacy Polygon sweep: a zero stablecoin
balance must terminate as a success outcome, not an error. -/
def legacyZeroSweepSuccessClaim : Prop :=
  ∀ o : LegacyPolyOracle, o.usdcBalance = 0 →
    (LegacyPolygonWalletService.transferFromTempWalletToMaster o).success = true

/-! ## Helper lemmas: hex codec, colon splitting, CBC inversion -/

theorem hexCharVal?_hexDigitChar {n : Nat} (hn : n < 16) :
    hexCharVal? (hexDigitChar n) = some n := by
  interval_cases n <;> decide

theorem hexDigitChar_ne_colon {n : Nat} (hn : n < 16) : hexDigitChar n ≠ colonByte := by
  interval_cases n <;> decide

theorem colon_not_mem_bytesToHex {l : List Nat} (h : BytesWF l) :
    colonByte ∉ bytesToHex l := by
  induction l with
  | nil => simp [bytesToHex]
  | cons b bs ih =>
    have hb : b < 256 := h b (by simp)
    have h1 : b / 16 < 16 := by omega
    have h2 : b % 16 < 16 := by omega
    simp only [bytesToHex, List.mem_cons, not_or]
    exact ⟨fun he => hexDigitChar_ne_colon h1 he.symm,
      fun he => hexDigitChar_ne_colon h2 he.symm,
      ih (fun x hx => h x (by simp [hx]))⟩

theorem hexToBytes_bytesToHex {l : List Nat} (h : BytesWF l) :
    hexToBytes (bytesToHex l) = l := by
  induction l with
  | nil => rfl
  | cons b bs ih =>
    have hb : b < 256 := h b (by simp)
    have h1 : b / 16 < 16 := by omega
    have h2 : b % 16 < 16 := by omega
    simp only [bytesToHex, hexToBytes, hexCharVal?_hexDigitChar h1,
      hexCharVal?_hexDigitChar h2, Nat.div_add_mod]
    rw [ih (fun x hx => h x (by simp [hx]))]

theorem splitOnColon_ne_nil (l : JStr) : splitOnColon l ≠ [] := by
  match l with
  | [] => simp [splitOnColon]
  | c :: rest =>
    simp only [splitOnColon]
    split
    · simp
    · split <;> simp

theorem splitOnColon_no_colon {a : JStr} (h : colonByte ∉ a) : splitOnColon a = [a] := by
  induction a with
  | nil => rfl
  | cons c rest ih =>
    have hc : ¬ (c = colonByte) := fun hh => h (by simp [hh])
    have hr : colonByte ∉ rest := fun hm => h (by simp [hm])
    simp [splitOnColon, hc, ih hr]

theorem splitOnColon_append {a b : JStr} (h : colonByte ∉ a) :
    splitOnColon (a ++ colonByte :: b) = a :: splitOnColon b := by
  induction a with
  | nil => simp [splitOnColon]
  | cons c rest ih =>
    have hc : ¬ (c = colonByte) := fun hh => h (by simp [hh])
    have hr : colonByte ∉ rest := fun hm => h (by simp [hm])
    simp [splitOnColon, hc, ih hr]

theorem xorBytes_cancel {a k : List Nat} (h : a.length ≤ k.length) :
    xorBytes (xorBytes a k) k = a := by
  induction a generalizing k with
  | nil => simp [xorBytes]
  | cons x xs ih =>
    match k with
    | [] => simp at h
    | y :: ys =>
      simp only [xorBytes, List.zipWith_cons_cons] at *
      rw [ih (by simpa using h)]
      congr 1
      exact Nat.xor_cancel_right y x

theorem xorBytes_length (a b : List Nat) :
    (xorBytes a b).length = min a.length b.length := by
  simp [xorBytes]

theorem bytesWF_xorBytes {a b : List Nat} (ha : BytesWF a) (hb : BytesWF b) :
    BytesWF (xorBytes a b) := by
  induction a generalizing b with
  | nil => simp [xorBytes, BytesWF]
  | cons x xs ih =>
    match b with
    | [] => simp [xorBytes, BytesWF]
    | y :: ys =>
      intro z hz
      simp only [xorBytes, List.zipWith_cons_cons, List.mem_cons] at hz
      rcases hz with h | h
      · subst h
        have hx : x < 2 ^ 8 := ha x (by simp)
        have hy : y < 2 ^ 8 := hb y (by simp)
        calc x ^^^ y < 2 ^ 8 := Nat.xor_lt_two_pow hx hy
          _ = 256 := by norm_num
      · exact ih (fun u hu => ha u (by simp [hu])) (fun u hu => hb u (by simp [hu])) z h

theorem bytesWF_take {l : List Nat} (h : BytesWF l) (n : Nat) : BytesWF (l.take n) :=
  fun b hb => h b (List.take_subset n l hb)

theorem decBlock_encBlock {key x : List Nat} (hkey : 16 ≤ key.length)
    (hx : x.length ≤ 16) : decBlock key (encBlock key x) = x := by
  unfold decBlock encBlock
  exact xorBytes_cancel (by simp [List.length_take]; omega)

theorem encBlock_length {key x : List Nat} (hkey : 16 ≤ key.length)
    (hx : x.length = 16) : (encBlock key x).length = 16 := by
  simp [encBlock, xorBytes, List.length_take]
  omega

theorem bytesWF_encBlock {key x : List Nat} (hkey : BytesWF key) (hx : BytesWF x) :
    BytesWF (encBlock key x) :=
  bytesWF_xorBytes hx (bytesWF_take hkey 16)

theorem cbcEncryptAux_cons (key prev : List Nat) (f : Nat) (b : Nat) (bs : List Nat) :
    cbcEncryptAux key (f + 1) prev (b :: bs) =
      encBlock key (xorBytes (List.take 16 (b :: bs)) prev) ++
        cbcEncryptAux key f (encBlock key (xorBytes (List.take 16 (b :: bs)) prev))
          (List.drop 16 (b :: bs)) := rfl

theorem cbcDecryptAux_append16 (key prev c rest : List Nat) (f : Nat)
    (hclen : c.length = 16) :
    cbcDecryptAux key (f + 1) prev (c ++ rest) =
      xorBytes (decBlock key c) prev ++ cbcDecryptAux key f c rest := by
  match c, hclen with
  | c0 :: ctl, hclen =>
    have h1 : List.take 16 ((c0 :: ctl) ++ rest) = c0 :: ctl := by
      rw [show (16 : Nat) = (c0 :: ctl).length from hclen.symm, List.take_left]
    have h2 : List.drop 16 ((c0 :: ctl) ++ rest) = rest := by
      rw [show (16 : Nat) = (c0 :: ctl).length from hclen.symm, List.drop_left]
    rw [List.cons_append]
    simp only [cbcDecryptAux]
    rw [← List.cons_append, h1, h2]

theorem cbc_roundtrip_aux (key : List Nat) (hkey : 16 ≤ key.length) :
    ∀ f prev data, data.length ≤ f → prev.length = 16 → data.length % 16 = 0 →
      cbcDecryptAux key f prev (cbcEncryptAux key f prev data) = data := by
  intro f
  induction f with
  | zero =>
    intro prev data hlen _ _
    have hd : data = [] := List.eq_nil_of_length_eq_zero (by omega)
    subst hd
    rfl
  | succ f ih =>
    intro prev data hlen hprev hmod
    match data with
    | [] => rfl
    | b :: bs =>
      have hL : (b :: bs).length = bs.length + 1 := rfl
      have hlen16 : 16 ≤ (b :: bs).length := by omega
      have hblklen : (List.take 16 (b :: bs)).length = 16 := by
        rw [List.length_take]; omega
      have hxlen : (xorBytes (List.take 16 (b :: bs)) prev).length = 16 := by
        rw [xorBytes_length, hblklen, hprev]; simp
      have hclen : (encBlock key (xorBytes (List.take 16 (b :: bs)) prev)).length = 16 :=
        encBlock_length hkey hxlen
      have hdlen : (List.drop 16 (b :: bs)).length ≤ f := by
        rw [List.length_drop]
        omega
      have hdmod : (List.drop 16 (b :: bs)).length % 16 = 0 := by
        rw [List.length_drop]
        omega
      rw [cbcEncryptAux_cons, cbcDecryptAux_append16 _ _ _ _ _ hclen,
        decBlock_encBlock hkey (by omega),
        xorBytes_cancel (by omega),
        ih _ _ hdlen hclen hdmod,
        List.take_append_drop]

theorem cbcEncryptAux_length (key : List Nat) (hkey : 16 ≤ key.length) :
    ∀ f prev data, data.length ≤ f → prev.length = 16 → data.length % 16 = 0 →
      (cbcEncryptAux key f prev data).length = data.length := by
  intro f
  induction f with
  | zero =>
    intro prev data hlen _ _
    have hd : data = [] := List.eq_nil_of_length_eq_zero (by omega)
    subst hd
    rfl
  | succ f ih =>
    intro prev data hlen hprev hmod
    match data with
    | [] => rfl
    | b :: bs =>
      have hL : (b :: bs).length = bs.length + 1 := rfl
      have hlen16 : 16 ≤ (b :: bs).length := by omega
      have hblklen : (List.take 16 (b :: bs)).length = 16 := by
        rw [List.length_take]; omega
      have hxlen : (xorBytes (List.take 16 (b :: bs)) prev).length = 16 := by
        rw [xorBytes_length, hblklen, hprev]; simp
      have hclen : (encBlock key (xorBytes (List.take 16 (b :: bs)) prev)).length = 16 :=
        encBlock_length hkey hxlen
      have hdlen : (List.drop 16 (b :: bs)).length ≤ f := by
        rw [List.length_drop]
        omega
      have hdmod : (List.drop 16 (b :: bs)).length % 16 = 0 := by
        rw [List.length_drop]
        omega
      rw [cbcEncryptAux_cons, List.length_append, hclen, ih _ _ hdlen hclen hdmod,
        List.length_drop]
      omega

theorem bytesWF_cbcEncryptAux (key : List Nat) (hkwf : BytesWF key) :
    ∀ f prev data, BytesWF prev → BytesWF data →
      BytesWF (cbcEncryptAux key f prev data) := by
  intro f
  induction f with
  | zero =>
    intro prev data _ _ z hz
    match data with
    | [] => simp [cbcEncryptAux] at hz
    | _ :: _ => simp [cbcEncryptAux] at hz
  | succ f ih =>
    intro prev data hprev hdata
    match data with
    | [] =>
      intro z hz
      simp [cbcEncryptAux] at hz
    | b :: bs =>
      have hblkwf : BytesWF (List.take 16 (b :: bs)) := bytesWF_take hdata 16
      have hcwf : BytesWF (encBlock key (xorBytes (List.take 16 (b :: bs)) prev)) :=
        bytesWF_encBlock hkwf (bytesWF_xorBytes hblkwf hprev)
      rw [cbcEncryptAux_cons]
      intro z hz
      rcases List.mem_append.mp hz with h | h
      · exact hcwf z h
      · exact ih _ _ hcwf (fun u hu => hdata u (List.drop_subset 16 _ hu)) z h

theorem cbcEncrypt_length {key prev data : List Nat} (hkey : 16 ≤ key.length)
    (hprev : prev.length = 16) (hmod : data.length % 16 = 0) :
    (cbcEncrypt key prev data).length = data.length :=
  cbcEncryptAux_length key hkey data.length prev data le_rfl hprev hmod

theorem bytesWF_cbcEncrypt {key prev data : List Nat} (hkwf : BytesWF key)
    (hprev : BytesWF prev) (hdata : BytesWF data) :
    BytesWF (cbcEncrypt key prev data) :=
  bytesWF_cbcEncryptAux key hkwf data.length prev data hprev hdata

theorem cbcDecrypt_cbcEncrypt {key prev data : List Nat} (hkey : 16 ≤ key.length)
    (hprev : prev.length = 16) (hmod : data.length % 16 = 0) :
    cbcDecrypt key prev (cbcEncrypt key prev data) = data := by
  unfold cbcDecrypt cbcEncrypt
  rw [cbcEncryptAux_length key hkey data.length prev data le_rfl hprev hmod]
  exact cbc_roundtrip_aux key hkey data.length prev data le_rfl hprev hmod

theorem pkcs7pad_length_mod (data : List Nat) : (pkcs7pad data).length % 16 = 0 := by
  simp [pkcs7pad]
  omega

theorem bytesWF_pkcs7pad {data : List Nat} (h : BytesWF data) :
    BytesWF (pkcs7pad data) := by
  intro b hb
  simp only [pkcs7pad, List.mem_append] at hb
  rcases hb with h1 | h1
  · exact h b h1
  · have := (List.mem_replicate.mp h1).2
    omega

theorem pkcs7unpad_pad (data : List Nat) : pkcs7unpad (pkcs7pad data) = some data := by
  unfold pkcs7pad pkcs7unpad
  have hplt : data.length % 16 < 16 := Nat.mod_lt _ (by omega)
  set p := 16 - data.length % 16 with hp
  have hp1 : 1 ≤ p := by omega
  have hp16 : p ≤ 16 := by omega
  have hrep : (List.replicate p p).getLast? = some p := by
    match p, hp1 with
    | q + 1, _ => rw [List.replicate_succ', List.getLast?_concat]
  rw [List.getLast?_append_of_ne_nil _ (by simp; omega), hrep]
  dsimp only
  have hlen : (data ++ List.replicate p p).length = data.length + p := by simp
  have hdrop : (data ++ List.replicate p p).length - p = data.length := by omega
  rw [if_pos]
  · rw [hdrop, List.take_left]
  · refine ⟨hp1, hp16, by omega, ?_⟩
    rw [hdrop, List.drop_left]
    simp only [List.all_eq_true, decide_eq_true_eq]
    intro u hu
    exact (List.mem_replicate.mp hu).2

/-! ## Vault lemmas: decryption round-trip, hash-directed paths, format errors -/

/-- Decrypting `encrypt` output with the same key recovers the plaintext. -/
theorem tryDecryptWithKey_encrypt {env : CryptoEnv} {iv P ct : JStr}
    (hk32 : 32 ≤ env.encryptionKey.length) (hkwf : BytesWF env.encryptionKey)
    (hiv : iv.length = 16) (hivwf : BytesWF iv) (hPwf : BytesWF P)
    (henc : encrypt env iv P = .ok ct) :
    tryDecryptWithKey ct env.encryptionKey = .ok P := by
  have hkeylen : (env.encryptionKey.take 32).length = 32 := by
    rw [List.length_take]; omega
  have hkeylen16 : 16 ≤ (env.encryptionKey.take 32).length := by omega
  have hkeywf : BytesWF (env.encryptionKey.take 32) := bytesWF_take hkwf 32
  simp only [encrypt] at henc
  rw [if_neg (by omega)] at henc
  injection henc with henc
  subst henc
  have hpadmod : (pkcs7pad P).length % 16 = 0 := pkcs7pad_length_mod P
  have hctbLen :
      (cbcEncrypt (env.encryptionKey.take 32) iv (pkcs7pad P)).length % 16 = 0 := by
    rw [cbcEncrypt_length hkeylen16 hiv hpadmod]
    exact hpadmod
  have hctbWF : BytesWF (cbcEncrypt (env.encryptionKey.take 32) iv (pkcs7pad P)) :=
    bytesWF_cbcEncrypt hkeywf hivwf (bytesWF_pkcs7pad hPwf)
  have hIvNC : colonByte ∉ bytesToHex iv := colon_not_mem_bytesToHex hivwf
  have hCtbNC : colonByte ∉
      bytesToHex (cbcEncrypt (env.encryptionKey.take 32) iv (pkcs7pad P)) :=
    colon_not_mem_bytesToHex hctbWF
  have hsplit : splitOnColon (bytesToHex iv ++ colonByte ::
      bytesToHex (cbcEncrypt (env.encryptionKey.take 32) iv (pkcs7pad P))) =
      [bytesToHex iv,
        bytesToHex (cbcEncrypt (env.encryptionKey.take 32) iv (pkcs7pad P))] := by
    rw [splitOnColon_append hIvNC, splitOnColon_no_colon hCtbNC]
  simp only [tryDecryptWithKey, hsplit]
  rw [if_neg (by simp), if_neg (by simp)]
  simp only [List.headD, List.tail, joinColon, hexToBytes_bytesToHex hivwf,
    hexToBytes_bytesToHex hctbWF]
  rw [if_neg (by omega), if_neg (by omega), if_neg (by omega),
    cbcDecrypt_cbcEncrypt hkeylen16 hiv hpadmod, pkcs7unpad_pad]

/-- A hash-directed decrypt whose hash matches the current key uses the
current key. -/
theorem decrypt_with_current_hash {env : CryptoEnv} {ct P : JStr}
    (h : tryDecryptWithKey ct env.encryptionKey = .ok P) :
    decrypt env ct (some (getEncryptionKeyHash env)) = .ok P := by
  simp [decrypt, h]

/-- The hash-directed fallback walk finds the first hash-matching key. -/
theorem tryFallbacksByHash_found {l1 l2 : List JStr} {K1 ct P : JStr}
    (hearlier : ∀ K' ∈ l1, getKeyHash K' ≠ getKeyHash K1)
    (hdec : tryDecryptWithKey ct K1 = .ok P) :
    tryFallbacksByHash (l1 ++ K1 :: l2) (getKeyHash K1) ct = some P := by
  induction l1 with
  | nil => simp [tryFallbacksByHash, hdec]
  | cons k ks ih =>
    have hk : ¬ (getKeyHash K1 = getKeyHash k) :=
      fun he => hearlier k (by simp) he.symm
    simp only [List.cons_append, tryFallbacksByHash, if_neg hk]
    exact ih (fun K' hK' => hearlier K' (by simp [hK']))

/-- Input with no colon fails the format check for every key. -/
theorem tryDecryptWithKey_no_colon {ct k : JStr} (hc : ct.contains colonByte = false) :
    tryDecryptWithKey ct k = .error .invalidFormat := by
  have hnm : colonByte ∉ ct := by simpa using hc
  simp only [tryDecryptWithKey]
  rw [if_pos (by simp [hnm])]

/-- The hash-directed fallback walk never succeeds on colon-free input. -/
theorem tryFallbacksByHash_no_colon (ks : List JStr) (h : JStr) {ct : JStr}
    (hc : ct.contains colonByte = false) : tryFallbacksByHash ks h ct = none := by
  induction ks with
  | nil => rfl
  | cons k kt ih =>
    simp only [tryFallbacksByHash, tryDecryptWithKey_no_colon hc]
    split <;> exact ih

/-- The last-resort fallback walk never succeeds on colon-free input. -/
theorem tryFallbacksInOrder_no_colon (ks : List JStr) {ct : JStr}
    (hc : ct.contains colonByte = false) : tryFallbacksInOrder ks ct = none := by
  induction ks with
  | nil => rfl
  | cons k kt ih =>
    simp only [tryFallbacksInOrder, tryDecryptWithKey_no_colon hc]
    exact ih

/-- On colon-free input, `decrypt` fails with the (rethrown) format error no
matter which key hash is stored: the format error is not a `bad decrypt`, so
the fallback loop is not entered. -/
theorem decrypt_no_colon {env : CryptoEnv} {ct : JStr}
    (hc : ct.contains colonByte = false) (hk : Option JStr) :
    decrypt env ct hk = .error .invalidFormat := by
  cases hk with
  | none =>
    simp [decrypt, tryDecryptWithKey_no_colon hc, isDecryptError]
  | some h =>
    simp [decrypt, tryDecryptWithKey_no_colon hc,
      tryFallbacksByHash_no_colon env.fallbackKeys h hc, isDecryptError, ite_self]

/-- A string of hex digits contains no colon. -/
theorem not_mem_colon_of_all_hex {s : JStr} (h : s.all isHexDigitByte = true) :
    colonByte ∉ s := by
  intro hm
  have hx := List.all_eq_true.mp h _ hm
  exact absurd hx (by decide)

/-! ## C5: encryption round-trip -/

/-- C5: for every plaintext private key P (well-formed bytes), a 32-byte-or-
longer key and a 16-byte IV, decrypting the output of `encrypt` with the
current key's hash returns P: `decrypt (encrypt P) (getKeyHash()) = P`. -/
theorem C5_encrypt_decrypt_roundtrip (env : CryptoEnv) (iv P ct : JStr)
    (hk32 : 32 ≤ env.encryptionKey.length) (hkwf : BytesWF env.encryptionKey)
    (hiv : iv.length = 16) (hivwf : BytesWF iv) (hPwf : BytesWF P)
    (henc : encrypt env iv P = .ok ct) :
    decrypt env ct (some (getEncryptionKeyHash env)) = .ok P :=
  decrypt_with_current_hash (tryDecryptWithKey_encrypt hk32 hkwf hiv hivwf hPwf henc)

/-- Witness for C5 at concrete key, IV and plaintext. -/
theorem C5_witness :
    32 ≤ wEnvA.encryptionKey.length ∧ encrypt wEnvA wIv wPlain = .ok wCtA ∧
      decrypt wEnvA wCtA (some (getEncryptionKeyHash wEnvA)) = .ok wPlain :=
  ⟨by decide, by decide,
    C5_encrypt_decrypt_roundtrip wEnvA wIv wPlain wCtA (by decide) (by decide)
      (by decide) (by decide) (by decide) (by decide)⟩

/-! ## C6: key-rotation fallback -/

/-- C6: a plaintext encrypted under key K1 is still recovered after rotation,
when K1 is no longer current but sits in the fallback list (with no earlier
fallback sharing its hash) and the wallet's stored hash is K1's hash: decrypt
matches the stored hash against the fallbacks and decrypts with K1. -/
theorem C6_fallback_roundtrip (K1 : JStr) (fb1 : List JStr) (env2 : CryptoEnv)
    (iv P ct : JStr) (l1 l2 : List JStr)
    (hk32 : 32 ≤ K1.length) (hkwf : BytesWF K1)
    (hiv : iv.length = 16) (hivwf : BytesWF iv) (hPwf : BytesWF P)
    (henc : encrypt ⟨K1, fb1⟩ iv P = .ok ct)
    (hfbs : env2.fallbackKeys = l1 ++ K1 :: l2)
    (hne : getKeyHash K1 ≠ getEncryptionKeyHash env2)
    (hearlier : ∀ K' ∈ l1, getKeyHash K' ≠ getKeyHash K1) :
    decrypt env2 ct (some (getKeyHash K1)) = .ok P := by
  have hdec : tryDecryptWithKey ct K1 = .ok P :=
    @tryDecryptWithKey_encrypt ⟨K1, fb1⟩ iv P ct hk32 hkwf hiv hivwf hPwf henc
  simp only [decrypt, if_neg hne, hfbs, tryFallbacksByHash_found hearlier hdec]

/-- Witness for C6: wKeyA rotated out in favour of wKeyB but kept as the only
fallback; the stored hash is wKeyA's. -/
theorem C6_witness :
    wEnvB.fallbackKeys = [] ++ wKeyA :: [] ∧
      getKeyHash wKeyA ≠ getEncryptionKeyHash wEnvB ∧
      decrypt wEnvB wCtA (some (getKeyHash wKeyA)) = .ok wPlain :=
  ⟨by decide, by decide,
    C6_fallback_roundtrip wKeyA [] wEnvB wIv wPlain wCtA [] [] (by decide)
      (by decide) (by decide) (by decide) (by decide) (by decide) (by decide)
      (by decide) (by simp)⟩

/-! ## C7: legacy plaintext pass-through -/

/-- C7: a wallet whose stored privateKey is a raw valid private key in its
chain's hex format (TRON: 64 hex chars; Polygon: 0x + 64 hex) is returned
unchanged by getDecryptedPrivateKey and no error is raised, even though
`decrypt` itself fails on it (with the rethrown format error). -/
theorem C7_legacy_plaintext_passthrough (env : CryptoEnv) (w w' : TempWallet)
    (hT : isTronRawPrivateKey w.privateKey = true)
    (hP0x : startsWith0x w'.privateKey = true)
    (hP : isPolygonRawPrivateKey w'.privateKey = true) :
    WalletService.getDecryptedPrivateKey env w = .ok w.privateKey ∧
      PolygonWalletService.getDecryptedPrivateKey env w' = .ok w'.privateKey ∧
      decrypt env w.privateKey w.encryptionKeyHash = .error .invalidFormat ∧
      decrypt env w'.privateKey w'.encryptionKeyHash = .error .invalidFormat := by
  have hTall : w.privateKey.all isHexDigitByte = true := by
    have := hT
    simp only [isTronRawPrivateKey, Bool.and_eq_true] at this
    exact this.2
  have hTnc : w.privateKey.contains colonByte = false := by
    simp [not_mem_colon_of_all_hex hTall]
  have hPall : (w'.privateKey.drop 2).all isHexDigitByte = true := by
    have := hP
    simp only [isPolygonRawPrivateKey, hP0x, if_pos, Bool.and_eq_true] at this
    exact this.2
  have hPeq : w'.privateKey = 48 :: 120 :: w'.privateKey.drop 2 := by
    have h2 : w'.privateKey.take 2 = [48, 120] := by
      simpa [startsWith0x] using hP0x
    conv_lhs => rw [← List.take_append_drop 2 w'.privateKey]
    rw [h2]
    rfl
  have hPnc : w'.privateKey.contains colonByte = false := by
    have hmem : colonByte ∉ w'.privateKey := by
      rw [hPeq]
      intro hm
      simp only [List.mem_cons] at hm
      rcases hm with h1 | h1 | h1
      · exact absurd h1 (by decide)
      · exact absurd h1 (by decide)
      · exact not_mem_colon_of_all_hex hPall h1
    simp [hmem]
  refine ⟨?_, ?_, decrypt_no_colon hTnc _, decrypt_no_colon hPnc _⟩
  · simp [WalletService.getDecryptedPrivateKey, decrypt_no_colon hTnc, hT]
  · simp [PolygonWalletService.getDecryptedPrivateKey, decrypt_no_colon hPnc, hP, hP0x]

/-- Witness for C7 at concrete legacy wallets on both chains. -/
theorem C7_witness :
    isTronRawPrivateKey wTronWallet.privateKey = true ∧
      isPolygonRawPrivateKey wPolyWallet.privateKey = true ∧
      WalletService.getDecryptedPrivateKey wEnvA wTronWallet = .ok wTronWallet.privateKey ∧
      PolygonWalletService.getDecryptedPrivateKey wEnvA wPolyWallet = .ok wPolyWallet.privateKey :=
  ⟨by decide, by decide,
    (C7_legacy_plaintext_passthrough wEnvA wTronWallet wPolyWallet (by decide)
        (by decide) (by decide)).1,
    (C7_legacy_plaintext_passthrough wEnvA wTronWallet wPolyWallet (by decide)
        (by decide) (by decide)).2.1⟩

/-! ## C10: only the first 32 key characters are cipher key material -/

/-- C10: the cipher key material is `key.slice(0, 32)`: two keys agreeing on
their first 32 characters encrypt and decrypt identically (for every
ciphertext, IV, plaintext and fallback configuration), even though getKeyHash
digests the full key string - witnessed by two such keys with distinct
hashes. -/
theorem C10_key_slice32 :
    (∀ k1 k2 : JStr, k1.take 32 = k2.take 32 →
        (∀ ct, decryptWithKey ct k1 = decryptWithKey ct k2) ∧
          (∀ fb1 fb2 iv P, encrypt ⟨k1, fb1⟩ iv P = encrypt ⟨k2, fb2⟩ iv P)) ∧
      wKeyC32.take 32 = wKeyC40.take 32 ∧ getKeyHash wKeyC32 ≠ getKeyHash wKeyC40 := by
  refine ⟨fun k1 k2 h => ⟨fun ct => ?_, fun fb1 fb2 iv P => ?_⟩, by decide, by decide⟩
  · simp only [decryptWithKey, tryDecryptWithKey, h]
  · simp only [encrypt, h]

/-- Witness for C10 at two concrete keys agreeing on their first 32 bytes. -/
theorem C10_witness :
    wKeyC32.take 32 = wKeyC40.take 32 ∧
      decryptWithKey wCtA wKeyC32 = decryptWithKey wCtA wKeyC40 ∧
      encrypt ⟨wKeyC32, []⟩ wIv wPlain = encrypt ⟨wKeyC40, []⟩ wIv wPlain :=
  ⟨by decide, (C10_key_slice32.1 wKeyC32 wKeyC40 (by decide)).1 wCtA,
    (C10_key_slice32.1 wKeyC32 wKeyC40 (by decide)).2 [] [] wIv wPlain⟩

/-! ## C1: withdrawal ledger atomicity -/

/-- C1: when acceptWithdraw has passed its guards and the chain transfer has
succeeded, a failure of any later step (the balance write, the transaction
write, or the commit) rolls the whole DB transaction back: the committed DB is
unchanged, the withdrawal is still PENDING (never left SUCCESS) and the user's
Balance is untouched. -/
theorem C1_withdraw_rollback (db : AdminDB) (withdrawId : Nat) (txHash : JStr)
    (f : DbFaults) (w : TransactionRec) (b : BalanceRec)
    (hw : findWithdraw db withdrawId = some w)
    (hpend : w.status = TransactionStatus.PENDING)
    (hb : findBalance db w.clientId = some b)
    (hamt : ¬ b.amount < w.amount)
    (hfail : f.saveBalanceFails = true ∨ f.saveTransactionFails = true ∨
      f.commitFails = true) :
    (AdminService.acceptWithdraw db withdrawId (.ok txHash) f).db = db ∧
      (AdminService.acceptWithdraw db withdrawId (.ok txHash) f).result =
        .error .dbFailure ∧
      findWithdraw (AdminService.acceptWithdraw db withdrawId (.ok txHash) f).db
        withdrawId = some w ∧
      w.status = TransactionStatus.PENDING ∧
      findBalance (AdminService.acceptWithdraw db withdrawId (.ok txHash) f).db
        w.clientId = some b := by
  cases h1 : f.saveBalanceFails <;> cases h2 : f.saveTransactionFails <;>
    cases h3 : f.commitFails <;>
    simp_all [AdminService.acceptWithdraw, ← not_le]

/-- Witness for C1: chain transfer succeeded, the transaction write fails. -/
theorem C1_witness :
    findWithdraw wAdminDB 10 = some wWithdrawTx ∧
      (AdminService.acceptWithdraw wAdminDB 10 (.ok [104, 49])
        ⟨false, true, false⟩).db = wAdminDB ∧
      (AdminService.acceptWithdraw wAdminDB 10 (.ok [104, 49])
        ⟨false, true, false⟩).result = .error .dbFailure ∧
      findWithdraw (AdminService.acceptWithdraw wAdminDB 10 (.ok [104, 49])
        ⟨false, true, false⟩).db 10 = some wWithdrawTx ∧
      wWithdrawTx.status = TransactionStatus.PENDING := by
  have h := C1_withdraw_rollback wAdminDB 10 [104, 49] ⟨false, true, false⟩
    wWithdrawTx ⟨5, 100⟩ (by decide) (by decide) (by decide) (by decide)
    (Or.inr (Or.inl rfl))
  exact ⟨by decide, h.1, h.2.1, h.2.2.1, h.2.2.2.1⟩

/-! ## C2: pre-transfer withdrawal guards -/

/-- C2: when the loaded withdrawal is not PENDING, or the user's Balance is
missing or strictly below the withdrawal amount, acceptWithdraw rejects before
the chain transfer: no master-wallet transfer is invoked and the committed DB
is unchanged. -/
theorem C2_withdraw_guards (db : AdminDB) (withdrawId : Nat) (chain : ChainOutcome)
    (f : DbFaults) (w : TransactionRec)
    (hw : findWithdraw db withdrawId = some w)
    (hguard : w.status ≠ TransactionStatus.PENDING ∨
      findBalance db w.clientId = none ∨
      ∃ b, findBalance db w.clientId = some b ∧ b.amount < w.amount) :
    (AdminService.acceptWithdraw db withdrawId chain f).chainCalled = false ∧
      (AdminService.acceptWithdraw db withdrawId chain f).db = db ∧
      ∃ e, (AdminService.acceptWithdraw db withdrawId chain f).result = .error e := by
  have hnn : ∀ {α : Type} (x y : α),
      (if w.status ≠ TransactionStatus.PENDING then x else y) =
        (if w.status = TransactionStatus.PENDING then y else x) := by
    intro α x y
    by_cases hq : w.status = TransactionStatus.PENDING
    · rw [if_pos hq, if_neg (fun hne => hne hq)]
    · rw [if_neg hq, if_pos hq]
  by_cases hst : w.status = TransactionStatus.PENDING
  · rcases hguard with h | h | ⟨b, hb, hlt⟩
    · exact absurd hst h
    · simp only [AdminService.acceptWithdraw, hw, hnn, if_pos hst, h]
      exact ⟨by trivial, by trivial, _, by rfl⟩
    · simp only [AdminService.acceptWithdraw, hw, hnn, if_pos hst, hb, if_pos hlt]
      exact ⟨by trivial, by trivial, _, by rfl⟩
  · simp only [AdminService.acceptWithdraw, hw, hnn, if_neg hst]
    exact ⟨by trivial, by trivial, _, by rfl⟩

/-- Witness for C2: withdrawal of 50 against a balance of 40 is rejected with
no chain call and no DB change. -/
theorem C2_witness :
    findWithdraw wAdminDBLow 10 = some wWithdrawTx ∧
      (AdminService.acceptWithdraw wAdminDBLow 10 (.ok [104])
        ⟨false, false, false⟩).chainCalled = false ∧
      (AdminService.acceptWithdraw wAdminDBLow 10 (.ok [104])
        ⟨false, false, false⟩).db = wAdminDBLow ∧
      ∃ e, (AdminService.acceptWithdraw wAdminDBLow 10 (.ok [104])
        ⟨false, false, false⟩).result = .error e := by
  have h := C2_withdraw_guards wAdminDBLow 10 (.ok [104]) ⟨false, false, false⟩
    wWithdrawTx (by decide)
    (Or.inr (Or.inr ⟨⟨5, 40⟩, by decide, by decide⟩))
  exact ⟨by decide, h.1, h.2.1, h.2.2⟩

/-! ## C8: getOrCreate returns the same wallet on a second call -/

theorem find?_append_none {α : Type} {p : α → Bool} {l1 l2 : List α}
    (h : l1.find? p = none) : (l1 ++ l2).find? p = l2.find? p := by
  induction l1 with
  | nil => rfl
  | cons x xs ih =>
    cases hx : p x with
    | true =>
      rw [List.find?_cons_of_pos _ hx] at h
      exact absurd h (by simp)
    | false =>
      rw [List.find?_cons_of_neg _ (by simp [hx])] at h
      rw [List.cons_append, List.find?_cons_of_neg _ (by simp [hx])]
      exact ih h

/-- A second sequential TRON getOrCreateTempWallet call returns the wallet the
first call returned (or created) and leaves the repository unchanged. -/
theorem getOrCreate_second_call_tron (env env2 : CryptoEnv) (iv iv2 : List Nat)
    (repo repo1 : WalletRepo) (userId : Nat) (fresh fresh2 : FreshAccount)
    (newId newId2 : Nat) (w1 : TempWallet)
    (h1 : WalletService.getOrCreateTempWallet env iv repo userId fresh newId =
      .ok (repo1, w1)) :
    WalletService.getOrCreateTempWallet env2 iv2 repo1 userId fresh2 newId2 =
      .ok (repo1, w1) := by
  unfold WalletService.getOrCreateTempWallet at h1 ⊢
  cases hf : WalletService.findActiveWallet repo userId with
  | some w =>
    rw [hf] at h1
    injection h1 with h1
    rw [Prod.mk.injEq] at h1
    obtain ⟨hrepo, hw⟩ := h1
    subst hrepo
    subst hw
    rw [hf]
  | none =>
    rw [hf] at h1
    cases henc : encrypt env iv fresh.privateKey with
    | error e =>
      rw [henc] at h1
      exact absurd h1 (by simp)
    | ok enc =>
      rw [henc] at h1
      injection h1 with h1
      rw [Prod.mk.injEq] at h1
      obtain ⟨hrepo, hw⟩ := h1
      subst hrepo
      subst hw
      have hfind : WalletService.findActiveWallet
          ⟨repo.rows ++ [mkTronWallet env userId fresh newId enc]⟩ userId =
          some (mkTronWallet env userId fresh newId enc) := by
        unfold WalletService.findActiveWallet at hf ⊢
        rw [find?_append_none hf]
        simp [mkTronWallet]
      rw [hfind]

/-- A second sequential Polygon getOrCreateTempWallet call returns the wallet
the first call returned (or created) and leaves the repository unchanged. -/
theorem getOrCreate_second_call_polygon (env env2 : CryptoEnv) (iv iv2 : List Nat)
    (repo repo1 : WalletRepo) (userId : Nat) (fresh fresh2 : FreshAccount)
    (newId newId2 : Nat) (w1 : TempWallet)
    (h1 : PolygonWalletService.getOrCreateTempWallet env iv repo userId fresh newId =
      .ok (repo1, w1)) :
    PolygonWalletService.getOrCreateTempWallet env2 iv2 repo1 userId fresh2 newId2 =
      .ok (repo1, w1) := by
  unfold PolygonWalletService.getOrCreateTempWallet at h1 ⊢
  cases hf : PolygonWalletService.findActiveWallet repo userId with
  | some w =>
    rw [hf] at h1
    injection h1 with h1
    rw [Prod.mk.injEq] at h1
    obtain ⟨hrepo, hw⟩ := h1
    subst hrepo
    subst hw
    rw [hf]
  | none =>
    rw [hf] at h1
    cases henc : encrypt env iv fresh.privateKey with
    | error e =>
      rw [henc] at h1
      exact absurd h1 (by simp)
    | ok enc =>
      rw [henc] at h1
      injection h1 with h1
      rw [Prod.mk.injEq] at h1
      obtain ⟨hrepo, hw⟩ := h1
      subst hrepo
      subst hw
      have hfind : PolygonWalletService.findActiveWallet
          ⟨repo.rows ++ [mkPolygonWallet env userId fresh newId enc]⟩ userId =
          some (mkPolygonWallet env userId fresh newId enc) := by
        unfold PolygonWalletService.findActiveWallet at hf ⊢
        rw [find?_append_none hf]
        simp [mkPolygonWallet]
      rw [hfind]

/-- C8: on both services, calling getOrCreateTempWallet twice in sequence
returns the same wallet both times - the second call finds the ACTIVE wallet
the first call created or returned and changes nothing, so sequential calls
leave at most one ACTIVE wallet per (userId, network). -/
theorem C8_getOrCreate_idempotent :
    (∀ (env env2 : CryptoEnv) (iv iv2 : List Nat) (repo repo1 : WalletRepo)
        (userId : Nat) (fresh fresh2 : FreshAccount) (newId newId2 : Nat)
        (w1 : TempWallet),
      WalletService.getOrCreateTempWallet env iv repo userId fresh newId =
          .ok (repo1, w1) →
        WalletService.getOrCreateTempWallet env2 iv2 repo1 userId fresh2 newId2 =
          .ok (repo1, w1)) ∧
    (∀ (env env2 : CryptoEnv) (iv iv2 : List Nat) (repo repo1 : WalletRepo)
        (userId : Nat) (fresh fresh2 : FreshAccount) (newId newId2 : Nat)
        (w1 : TempWallet),
      PolygonWalletService.getOrCreateTempWallet env iv repo userId fresh newId =
          .ok (repo1, w1) →
        PolygonWalletService.getOrCreateTempWallet env2 iv2 repo1 userId fresh2 newId2 =
          .ok (repo1, w1)) :=
  ⟨getOrCreate_second_call_tron, getOrCreate_second_call_polygon⟩

/-- Witness for C8: both services, first call on the empty repo creates a
wallet, the second call (with different key environment, IV and id) returns
exactly that wallet. -/
theorem C8_witness :
    WalletService.getOrCreateTempWallet wEnvA wIv wRepo0 7 wFresh 100 =
        .ok (wGot1.1, wGot1.2) ∧
      WalletService.getOrCreateTempWallet wEnvB wIv wGot1.1 7 wFresh 101 =
        .ok (wGot1.1, wGot1.2) ∧
      PolygonWalletService.getOrCreateTempWallet wEnvA wIv wRepo0 7 wFresh 200 =
        .ok (wGotP1.1, wGotP1.2) ∧
      PolygonWalletService.getOrCreateTempWallet wEnvB wIv wGotP1.1 7 wFresh 201 =
        .ok (wGotP1.1, wGotP1.2) :=
  ⟨by decide,
    C8_getOrCreate_idempotent.1 wEnvA wEnvB wIv wIv wRepo0 wGot1.1 7 wFresh wFresh
      100 101 wGot1.2 (by decide),
    by decide,
    C8_getOrCreate_idempotent.2 wEnvA wEnvB wIv wIv wRepo0 wGotP1.1 7 wFresh wFresh
      200 201 wGotP1.2 (by decide)⟩

/-! ## C3: receipt requirement on the sweep confirm step -/

/-- C3 (counterexample): the claim fails on the TRON sweep - at the concrete
oracle whose 60 confirmation polls all time out, the sweep still returns a
success result (the source logs `Don't throw error - the transfer likely
succeeded`). -/
theorem C3_counterexample : ¬ tronConfirmRequiredClaim := by
  intro hcl
  obtain ⟨e, he⟩ := hcl wTronOracleUnconfirmed (by decide)
    ⟨[104, 49], by decide, by decide⟩ (by decide)
  have hok : WalletService.transferFromTempToMaster wTronOracleUnconfirmed =
      .ok ⟨50, [104, 49], none⟩ := by decide
  rw [hok] at he
  exact Except.noConfusion he

/-- C3 (amended): on the Polygon sweep a receipt with status 1 is required for
success - any other status reports `USDC transfer failed` with success false,
keeping the maticTxHash of the gas top-up (not rolled back); the TRON sweep by
contrast returns a success result regardless of the confirmation polls (a
timeout is only logged). -/
theorem C3_receipt_required_polygon_not_tron :
    (∀ (o : PolyOracle) (pk : JStr) (gp gl n : Nat) (m txh : JStr) (st : Option Nat),
      o.masterConfigured = true →
      PolygonWalletService.getDecryptedPrivateKey o.env o.wallet = .ok pk →
      o.gasPrice = .ok gp →
      o.estimateGas = .ok gl →
      0 < gl * (gp * 2) →
      o.tempMaticWei < gl * (gp * 2) →
      o.sendMATICResult = ⟨true, some m⟩ →
      o.previousTxWait = .ok () →
      o.nonce = .ok n →
      o.usdcTransferSend = .ok txh →
      o.receiptStatus = .ok st →
      st ≠ some 1 →
      PolygonWalletService.transferUSDCFromTempWalletToMaster o =
        ⟨false, none, some m, some .usdcTransferFailed⟩) ∧
    (∀ (o : TronOracle) (w : TempWallet) (pk h : JStr),
      o.wallet = some w →
      WalletService.getDecryptedPrivateKey o.env w = .ok pk →
      0 < o.usdtBalance →
      ¬ o.trxBalance < o.requiredTRX →
      o.usdtSend = .ok (.str h) →
      h ≠ [] →
      o.remainingTrxBalance ≤ mkRat 1 2 →
      WalletService.transferFromTempToMaster o = .ok ⟨o.usdtBalance, h, none⟩) := by
  constructor
  · intro o pk gp gl n m txh st hmc hkey hgp hgl hpos hlt hsend hwait hnonce htx hrc hst
    simp only [PolygonWalletService.transferUSDCFromTempWalletToMaster, hmc, hkey,
      hgp, hgl, hsend, hwait, hnonce, htx, hrc, Bool.not_true, Bool.false_eq_true,
      if_false, if_pos hpos, if_pos hlt, if_pos hst]
  · intro o w pk h hw hkey hpos hnotop hsend hne hrem
    have hle : ¬ o.usdtBalance ≤ 0 := not_le.mpr hpos
    have hempty : h.isEmpty = false := by
      cases h with
      | nil => exact absurd rfl hne
      | cons x xs => rfl
    have hrb : ¬ o.remainingTrxBalance > mkRat 1 2 := not_lt.mpr hrem
    simp only [WalletService.transferFromTempToMaster, hw, hkey, hsend, txHashOf,
      if_neg hle, if_neg hnotop, if_neg hrb, hempty, Bool.false_eq_true, if_false,
      Option.orElse]

/-- Witness for C3 (amended) at the concrete oracles. -/
theorem C3_witness :
    PolygonWalletService.transferUSDCFromTempWalletToMaster wPolyOracleFailedReceipt =
        ⟨false, none, some [109, 49], some .usdcTransferFailed⟩ ∧
      WalletService.transferFromTempToMaster wTronOracleUnconfirmed =
        .ok ⟨50, [104, 49], none⟩ :=
  ⟨C3_receipt_required_polygon_not_tron.1 wPolyOracleFailedReceipt
      wPolyWallet.privateKey 30 60000 0 [109, 49] [117, 49] (some 0) (by decide)
      (by decide) (by decide) (by decide) (by decide) (by decide) (by decide)
      (by decide) (by decide) (by decide) (by decide) (by decide),
    C3_receipt_required_polygon_not_tron.2 wTronOracleUnconfirmed wTronWallet
      wTronWallet.privateKey [104, 49] (by decide) (by decide) (by decide)
      (by decide) (by decide) (by decide) (by decide)⟩

/-! ## C4: zero-balance sweep outcome -/

/-- C4 (counterexample): the claim fails on the legacy Polygon sweep - at the
concrete oracle with zero USDC (master configured, key decryptable) it returns
success false with error `No USDC to transfer.`, an error outcome. -/
theorem C4_counterexample : ¬ legacyZeroSweepSuccessClaim := by
  intro hcl
  have hres := hcl wLegacyOracleZero (by decide)
  rw [show LegacyPolygonWalletService.transferFromTempWalletToMaster wLegacyOracleZero =
      ⟨false, none, none, some .noUsdcToTransfer⟩ from by decide] at hres
  exact absurd hres (by decide)

/-- C4 (amended): the TRON sweep with zero USDT and TRX at or below the 0.5
buffer returns a success result with no transaction hashes ("nothing to
transfer"); the legacy Polygon sweep instead reports success false with error
`No USDC to transfer.` whenever USDC is at or below its dust threshold. -/
theorem C4_nothing_to_transfer :
    (∀ (o : TronOracle) (w : TempWallet) (pk : JStr),
      o.wallet = some w →
      WalletService.getDecryptedPrivateKey o.env w = .ok pk →
      o.usdtBalance ≤ 0 →
      o.trxBalance ≤ mkRat 1 2 →
      WalletService.transferFromTempToMaster o = .ok ⟨0, [], none⟩) ∧
    (∀ (o : LegacyPolyOracle) (pk : JStr),
      o.masterConfigured = true →
      LegacyPolygonWalletService.getDecryptedPrivateKey o.env o.wallet = .ok pk →
      o.usdcBalance ≤ mkRat 1 1000000 →
      LegacyPolygonWalletService.transferFromTempWalletToMaster o =
        ⟨false, none, none, some .noUsdcToTransfer⟩) := by
  constructor
  · intro o w pk hw hkey hz htrx
    have htb : ¬ o.trxBalance > mkRat 1 2 := not_lt.mpr htrx
    simp only [WalletService.transferFromTempToMaster, hw, hkey, if_pos hz,
      if_neg htb]
  · intro o pk hmc hkey husdc
    have hub : ¬ o.usdcBalance > mkRat 1 1000000 := not_lt.mpr husdc
    simp only [LegacyPolygonWalletService.transferFromTempWalletToMaster, hmc, hkey,
      Bool.not_true, Bool.false_eq_true, if_false, if_neg hub]

/-- Witness for C4 (amended) at the concrete oracles. -/
theorem C4_witness :
    WalletService.transferFromTempToMaster wTronOracleEmpty = .ok ⟨0, [], none⟩ ∧
      LegacyPolygonWalletService.transferFromTempWalletToMaster wLegacyOracleZero =
        ⟨false, none, none, some .noUsdcToTransfer⟩ :=
  ⟨C4_nothing_to_transfer.1 wTronOracleEmpty wTronWallet wTronWallet.privateKey
      (by decide) (by decide) (by decide) (by decide),
    C4_nothing_to_transfer.2 wLegacyOracleZero wPolyWallet.privateKey (by decide)
      (by decide) (by decide)⟩

/-! ## C9: transfer serialization through the single-slot queue -/

/-- C9 (counterexample): the claim fails for the TRON chain - its sweep path
is not routed through any queue, so among the free interleavings of two
concurrent TRON sweep attempts there is a trace with two transfers in flight
at once. -/
theorem C9_counterexample :
    ¬ (serializedSweeps tronTwoSweepTraces ∧ serializedSweeps polygonTwoSweepTraces) := by
  intro hcl
  exact absurd hcl.1 (by decide)

/-- C9 (amended): only the Polygon sweep path is serialized - two attempts
enqueued on the single-slot usdcTransferQueue always execute back to back,
keeping at most one transfer in flight, while the unqueued TRON sweep admits
an interleaving with two concurrent in-flight transfers. -/
theorem C9_queue_serializes_polygon_only :
    serializedSweeps polygonTwoSweepTraces ∧ ¬ serializedSweeps tronTwoSweepTraces :=
  ⟨by decide, by decide⟩

end Market
